import Mathlib

set_option maxHeartbeats 1000000

namespace JiraPipeline

/-! Shallow embedding of src/jira_pipeline.py.

Python dictionary values that the script manipulates (issue fields) are
modelled by `PyVal`; fallible Python expressions (attribute errors,
key errors) are modelled in `Except String`.  The pagination loop of
`get_jira_issues` is modelled with explicit fuel, the watermark query
`get_last_updated_timestamp` over an explicit destination state, and
`format_timestamp` over an executable model of `datetime.fromisoformat`
and `strftime`. -/

/-- Python values occurring in Jira issue payloads: None, strings and dicts. -/
inductive PyVal where
  | pnone
  | pstr (s : String)
  | pdict (entries : List (String × PyVal))

/-- Lookup in a Python dict (keys are unique, first binding wins). -/
def dictGet : List (String × PyVal) → String → Option PyVal
  | [], _ => none
  | (k, v) :: rest, key => if k = key then some v else dictGet rest key

/-- Python truthiness of the modelled values. -/
def pyTruthy : PyVal → Bool
  | PyVal.pnone => false
  | PyVal.pstr s => !(s == "")
  | PyVal.pdict d => !d.isEmpty

/-- Model of Python `v.get(key, dflt)`: a method call, so it raises
`AttributeError` when `v` is not a dict (in particular when `v` is None). -/
def pyGetMeth (v : PyVal) (key : String) (dflt : PyVal) : Except String PyVal :=
  match v with
  | PyVal.pdict d => Except.ok ((dictGet d key).getD dflt)
  | _ => Except.error "AttributeError"

/-- Model of Python subscription `v[key]`: raises `KeyError` when the key is
absent and `TypeError` when `v` is not a dict. -/
def pySubscript (v : PyVal) (key : String) : Except String PyVal :=
  match v with
  | PyVal.pdict d =>
      match dictGet d key with
      | some x => Except.ok x
      | none => Except.error "KeyError"
  | _ => Except.error "TypeError"

/-- Minimal JSON string escaping used by the `json.dumps` model. -/
def jsonEscapeChar (c : Char) : List Char :=
  if c = '"' ∨ c = '\\' then ['\\', c] else [c]

mutual

/-- Model of `json.dumps` on the modelled values. -/
def jsonDumpsVal : PyVal → String
  | PyVal.pnone => "null"
  | PyVal.pstr s => "\"" ++ String.mk (s.data.flatMap jsonEscapeChar) ++ "\""
  | PyVal.pdict d => "\x7b" ++ jsonDumpsEntries d ++ "\x7d"

/-- Serialization of dict entries with `json.dumps` default separators. -/
def jsonDumpsEntries : List (String × PyVal) → String
  | [] => ""
  | [(k, v)] => "\"" ++ String.mk (k.data.flatMap jsonEscapeChar) ++ "\": " ++ jsonDumpsVal v
  | (k, v) :: rest =>
      "\"" ++ String.mk (k.data.flatMap jsonEscapeChar) ++ "\": " ++ jsonDumpsVal v ++ ", " ++
        jsonDumpsEntries rest

end

/-- A raw Jira issue as received from the search API: always carries `id`,
`key` and a `fields` dict; individual sub-fields of `fields` may be absent. -/
structure RawIssue where
  id : String
  key : String
  fields : List (String × PyVal)

/-- The flat record produced per issue by `load_issues`. -/
structure NormalizedIssueRecord where
  id : String
  key : String
  summary : PyVal
  status : PyVal
  assignee : PyVal
  created_date : PyVal
  updated_date : PyVal
  issue_type : PyVal
  fields_json : String

/-- Model of the per-issue body of `load_issues` in src/jira_pipeline.py:
`assignee = issue["fields"].get("assignee")`,
`assignee_name = assignee["displayName"] if assignee else None`, and the
yielded dict with `.get` defaults for summary/status/created/updated/issuetype
and `json.dumps(issue["fields"])`. -/
def mapIssue (issue : RawIssue) : Except String NormalizedIssueRecord :=
  match (if pyTruthy ((dictGet issue.fields "assignee").getD PyVal.pnone) then
           pySubscript ((dictGet issue.fields "assignee").getD PyVal.pnone) "displayName"
         else Except.ok PyVal.pnone) with
  | Except.error e => Except.error e
  | Except.ok assigneeName =>
    match pyGetMeth ((dictGet issue.fields "status").getD (PyVal.pdict [])) "name"
        (PyVal.pstr "") with
    | Except.error e => Except.error e
    | Except.ok statusVal =>
      match pyGetMeth ((dictGet issue.fields "issuetype").getD (PyVal.pdict [])) "name"
          (PyVal.pstr "") with
      | Except.error e => Except.error e
      | Except.ok issueTypeVal =>
          Except.ok
            { id := issue.id
              key := issue.key
              summary := (dictGet issue.fields "summary").getD (PyVal.pstr "")
              status := statusVal
              assignee := assigneeName
              created_date := (dictGet issue.fields "created").getD (PyVal.pstr "")
              updated_date := (dictGet issue.fields "updated").getD (PyVal.pstr "")
              issue_type := issueTypeVal
              fields_json := jsonDumpsVal (PyVal.pdict issue.fields) }

/-- Model of the `load_issues` generator: maps `mapIssue` over the fetched
issues, propagating the first raised error. -/
def loadIssues (issues : List RawIssue) : Except String (List NormalizedIssueRecord) :=
  issues.mapM mapIssue

/-- Well-formedness of the optional `status` / `issuetype` sub-fields for
the `.get(k, dict).get("name", str)` chain: absent, or bound to a dict. -/
def optFieldOk (fields : List (String × PyVal)) (k : String) : Bool :=
  match dictGet fields k with
  | none => true
  | some (PyVal.pdict _) => true
  | some _ => false

/-- Well-formedness of the optional `assignee` sub-field for the code's
`assignee["displayName"] if assignee else None` expression. -/
def assigneeOk (fields : List (String × PyVal)) : Bool :=
  match (dictGet fields "assignee").getD PyVal.pnone with
  | PyVal.pdict d => !(pyTruthy (PyVal.pdict d)) || (dictGet d "displayName").isSome
  | v => !(pyTruthy v)

/-- One row of the destination table `jira_issues.jira_issues`; the column
read by the watermark query is the (nullable) `updated_date`. -/
structure DestRow where
  updated_date : Option String
deriving DecidableEq

/-- Destination database state: `none` when the table does not exist. -/
structure Destination where
  table : Option (List DestRow)

/-- Lexicographic order on character lists (binary collation). -/
def listLt : List Char → List Char → Bool
  | [], [] => false
  | [], _ :: _ => true
  | _ :: _, [] => false
  | a :: as, b :: bs =>
      if a.toNat < b.toNat then true
      else if b.toNat < a.toNat then false
      else listLt as bs

/-- Lexicographic order on strings (binary collation). -/
def strLtB (a b : String) : Bool :=
  listLt a.data b.data

/-- SQL `MAX` over a varchar column: NULLs are ignored, NULL on empty input. -/
def sqlMaxStr (vals : List (Option String)) : Option String :=
  vals.foldl
    (fun acc v =>
      match acc, v with
      | none, v => v
      | some m, none => some m
      | some m, some s => some (if strLtB m s then s else m))
    none

/-- Observable connection-level events of the watermark read. -/
inductive DbEvent where
  | connOpen
  | catalogQuery
  | dataQuery
  | connClose
deriving DecidableEq

/-- Model of `get_last_updated_timestamp` in src/jira_pipeline.py: opens a
connection, runs the `information_schema.tables` existence check, returns
None when the table is absent; otherwise runs `MAX(updated_date)` and
returns `result[0] if result[0] else None` (Python truthiness).  The second
component is the trace of connection events the function performs. -/
def get_last_updated_timestamp (dest : Destination) : Option String × List DbEvent :=
  match dest.table with
  | none => (none, [DbEvent.connOpen, DbEvent.catalogQuery])
  | some rows =>
      let r :=
        match sqlMaxStr (rows.map DestRow.updated_date) with
        | some s => if s = "" then none else some s
        | none => none
      (r, [DbEvent.connOpen, DbEvent.catalogQuery, DbEvent.dataQuery])

/-- Digit value of a character, `none` for non-digits. -/
def digitVal (c : Char) : Option Nat :=
  if '0' ≤ c ∧ c ≤ '9' then some (c.toNat - '0'.toNat) else none

/-- Parse exactly two decimal digits. -/
def parse2 : List Char → Option (Nat × List Char)
  | c1 :: c2 :: rest =>
      match digitVal c1, digitVal c2 with
      | some a, some b => some (10 * a + b, rest)
      | _, _ => none
  | _ => none

/-- Parse exactly four decimal digits. -/
def parse4 : List Char → Option (Nat × List Char)
  | c1 :: c2 :: c3 :: c4 :: rest =>
      match digitVal c1, digitVal c2, digitVal c3, digitVal c4 with
      | some a, some b, some c, some d => some (1000 * a + 100 * b + 10 * c + d, rest)
      | _, _, _, _ => none
  | _ => none

/-- Consume one expected character. -/
def expectChar (c : Char) : List Char → Option (List Char)
  | x :: rest => if x = c then some rest else none
  | _ => none

/-- Take the maximal run of leading digits. -/
def takeDigits : List Char → List Nat × List Char
  | [] => ([], [])
  | c :: rest =>
      match digitVal c with
      | some k =>
          let p := takeDigits rest
          (k :: p.1, p.2)
      | none => ([], c :: rest)

/-- Gregorian leap-year predicate. -/
def isLeapYear (y : Nat) : Bool :=
  (y % 4 == 0 && y % 100 != 0) || (y % 400 == 0)

/-- Number of days of a month. -/
def daysInMonth (y m : Nat) : Nat :=
  if m = 2 then (if isLeapYear y then 29 else 28)
  else if m = 4 ∨ m = 6 ∨ m = 9 ∨ m = 11 then 30 else 31

/-- Two-digit zero-padded decimal rendering (as `%02d` for inputs below 100). -/
def pad2 (n : Nat) : List Char :=
  [Nat.digitChar (n / 10 % 10), Nat.digitChar (n % 10)]

/-- Four-digit zero-padded decimal rendering (as `%04d` for inputs below 10000). -/
def pad4 (n : Nat) : List Char :=
  [Nat.digitChar (n / 1000 % 10), Nat.digitChar (n / 100 % 10),
   Nat.digitChar (n / 10 % 10), Nat.digitChar (n % 10)]

/-- Six-digit zero-padded decimal rendering (as `%06d` for inputs below 10^6). -/
def pad6 (n : Nat) : List Char :=
  [Nat.digitChar (n / 100000 % 10), Nat.digitChar (n / 10000 % 10),
   Nat.digitChar (n / 1000 % 10), Nat.digitChar (n / 100 % 10),
   Nat.digitChar (n / 10 % 10), Nat.digitChar (n % 10)]

/-- A Python `datetime` value: calendar fields plus an optional fixed UTC
offset in minutes (`tzMinutes = none` for a naive datetime). -/
structure PyDateTime where
  year : Nat
  month : Nat
  day : Nat
  hour : Nat
  minute : Nat
  second : Nat
  microsecond : Nat
  tzMinutes : Option Int
deriving DecidableEq

/-- Bound on a UTC offset: strictly less than 24 hours in magnitude. -/
def tzOkB : Option Int → Bool
  | none => true
  | some m => decide (m.natAbs < 1440)

/-- Range constraints satisfied by every Python-constructible `datetime`
(`MINYEAR = 1`, `MAXYEAR = 9999`, calendar-valid day, etc.). -/
def PyDateTime.valid (d : PyDateTime) : Prop :=
  1 ≤ d.year ∧ d.year ≤ 9999 ∧ 1 ≤ d.month ∧ d.month ≤ 12 ∧ 1 ≤ d.day ∧
    d.day ≤ daysInMonth d.year d.month ∧ d.hour ≤ 23 ∧ d.minute ≤ 59 ∧
    d.second ≤ 59 ∧ d.microsecond ≤ 999999 ∧ tzOkB d.tzMinutes = true

/-- Rendering of a UTC offset as `+HH:MM` / `-HH:MM`. -/
def offsetChars (m : Int) : List Char :=
  (if m < 0 then ['-'] else ['+']) ++ pad2 (m.natAbs / 60) ++ ':' :: pad2 (m.natAbs % 60)

/-- Character sequence of `datetime.isoformat()`:
`YYYY-MM-DDTHH:MM:SS[.ffffff][+HH:MM]`. -/
def isoChars (d : PyDateTime) : List Char :=
  pad4 d.year ++ '-' :: (pad2 d.month ++ '-' :: (pad2 d.day ++ 'T' ::
    (pad2 d.hour ++ ':' :: (pad2 d.minute ++ ':' :: (pad2 d.second ++
      ((if d.microsecond = 0 then [] else '.' :: pad6 d.microsecond) ++
        (match d.tzMinutes with
         | none => []
         | some m => offsetChars m)))))))

/-- Model of `datetime.isoformat()`. -/
def PyDateTime.isoformat (d : PyDateTime) : String :=
  String.mk (isoChars d)

/-- Model of `strftime('%Y-%m-%d %H:%M')`: minute precision, no seconds,
no sub-seconds, no timezone annotation. -/
def strftimeYmdHM (d : PyDateTime) : String :=
  String.mk (pad4 d.year ++ '-' :: (pad2 d.month ++ '-' :: (pad2 d.day ++ ' ' ::
    (pad2 d.hour ++ ':' :: pad2 d.minute))))

/-- Model of `str.replace("Z", "+00:00")` (every occurrence is replaced). -/
def replaceZChars : List Char → List Char
  | [] => []
  | c :: rest =>
      (if c = 'Z' then ['+', '0', '0', ':', '0', '0'] else [c]) ++ replaceZChars rest

/-- String-level wrapper of `replaceZChars`. -/
def replaceZ (s : String) : String :=
  String.mk (replaceZChars s.data)

/-- Final validation and construction step of the ISO parser. -/
def finishDT (y mo d hh mi ss μ : Nat) (tz : Option Int) : Option PyDateTime :=
  if hh ≤ 23 ∧ mi ≤ 59 ∧ ss ≤ 59 then some ⟨y, mo, d, hh, mi, ss, μ, tz⟩ else none

/-- Parse the optional trailing `±HH:MM` offset, requiring the input to be
fully consumed, then validate and build the datetime. -/
def parseOffsetThen (y mo d hh mi ss μ : Nat) (r : List Char) : Option PyDateTime :=
  match r with
  | [] => finishDT y mo d hh mi ss μ none
  | c :: r1 =>
      if c = '+' ∨ c = '-' then
        match parse2 r1 with
        | none => none
        | some (oh, r2) =>
            match expectChar ':' r2 with
            | none => none
            | some r3 =>
                match parse2 r3 with
                | none => none
                | some (om, r4) =>
                    match r4 with
                    | [] =>
                        if 60 * oh + om < 1440 then
                          finishDT y mo d hh mi ss μ
                            (some (if c = '-' then -(((60 * oh + om : Nat)) : Int)
                                   else ((60 * oh + om : Nat) : Int)))
                        else none
                    | _ => none
      else none

/-- Numeric value of a digit run (most significant digit first). -/
def fracValue (ds : List Nat) : Nat :=
  ds.foldl (fun a b => 10 * a + b) 0

/-- Parse the fractional-second digits (1 to 6 of them) after the dot,
scaling to microseconds, then the optional offset. -/
def parseFracThen (y mo d hh mi ss : Nat) (r : List Char) : Option PyDateTime :=
  let p := takeDigits r
  if 1 ≤ p.1.length ∧ p.1.length ≤ 6 then
    parseOffsetThen y mo d hh mi ss (fracValue p.1 * 10 ^ (6 - p.1.length)) p.2
  else none

/-- Parse the time-of-day part `HH[:MM[:SS[.ffffff]]][±HH:MM]`. -/
def parseTime (y mo d : Nat) (r : List Char) : Option PyDateTime :=
  match parse2 r with
  | none => none
  | some (hh, r1) =>
      match expectChar ':' r1 with
      | none => parseOffsetThen y mo d hh 0 0 0 r1
      | some r2 =>
          match parse2 r2 with
          | none => none
          | some (mi, r3) =>
              match expectChar ':' r3 with
              | none => parseOffsetThen y mo d hh mi 0 0 r3
              | some r4 =>
                  match parse2 r4 with
                  | none => none
                  | some (ss, r5) =>
                      match expectChar '.' r5 with
                      | none => parseOffsetThen y mo d hh mi ss 0 r5
                      | some r6 => parseFracThen y mo d hh mi ss r6

/-- Model of `datetime.fromisoformat` on the character list:
`YYYY-MM-DD[*HH[:MM[:SS[.ffffff]]][±HH:MM]]` with calendar validation;
`none` models a raised `ValueError`. -/
def fromisoformatChars (cs : List Char) : Option PyDateTime :=
  match parse4 cs with
  | none => none
  | some (y, r1) =>
      match expectChar '-' r1 with
      | none => none
      | some r2 =>
          match parse2 r2 with
          | none => none
          | some (mo, r3) =>
              match expectChar '-' r3 with
              | none => none
              | some r4 =>
                  match parse2 r4 with
                  | none => none
                  | some (dd, r5) =>
                      if 1 ≤ mo ∧ mo ≤ 12 ∧ 1 ≤ dd ∧ dd ≤ daysInMonth y mo then
                        match r5 with
                        | [] => some ⟨y, mo, dd, 0, 0, 0, 0, none⟩
                        | _ :: r6 => parseTime y mo dd r6
                      else none

/-- Model of `datetime.fromisoformat` on strings. -/
def fromisoformat (s : String) : Option PyDateTime :=
  fromisoformatChars s.data

/-- Possible inputs of `format_timestamp`: None, a string, or a datetime. -/
inductive TsInput where
  | pynone
  | str (s : String)
  | dt (d : PyDateTime)

/-- Model of `format_timestamp` in src/jira_pipeline.py: falsy input gives
None; a datetime is first serialized with `isoformat()`; then `"Z"` is
replaced by `"+00:00"`, the result parsed with `fromisoformat`, and on
success formatted with `strftime('%Y-%m-%d %H:%M')`; a parse failure
(caught `ValueError`) gives None. -/
def format_timestamp : TsInput → Option String
  | TsInput.pynone => none
  | TsInput.str s =>
      if s.data = [] then none
      else
        match fromisoformat (replaceZ s) with
        | some d => some (strftimeYmdHM d)
        | none => none
  | TsInput.dt d =>
      match fromisoformat (replaceZ d.isoformat) with
      | some d2 => some (strftimeYmdHM d2)
      | none => none

/-- The nullable watermark value read from the destination, as handed to
`format_timestamp` (a string when present, None otherwise). -/
def tsInputOfOpt : Option String → TsInput
  | none => TsInput.pynone
  | some s => TsInput.str s

/-- JQL filter built by `get_jira_issues`: always the project restriction,
plus the `updated >=` bound and `ORDER BY updated DESC` exactly when the
formatted watermark is non-null. -/
def buildJql (projectKey : String) (fw : Option String) : String :=
  match fw with
  | none => "project = \"" ++ projectKey ++ "\""
  | some w =>
      "project = \"" ++ projectKey ++ "\" AND updated >= \"" ++ w ++
        "\" ORDER BY updated DESC"

/-- The fixed field list requested from the search API. -/
def requestFields : List String :=
  ["summary", "description", "created", "updated", "issuetype", "status", "assignee"]

/-- One request issued to the Jira search endpoint. -/
structure SearchRequest where
  jql : String
  fields : List String
  startAt : Nat
  maxResults : Nat
deriving DecidableEq

/-- The request the loop sends for a given offset. -/
def mkRequest (jql : String) (startAt : Nat) : SearchRequest :=
  ⟨jql, requestFields, startAt, 100⟩

/-- A mocked API response for one page request: a 200 response carrying the
reported `total` and the page's `issues`, or a non-success status code. -/
inductive ApiResponse where
  | ok (total : Nat) (issues : List RawIssue)
  | err (code : Nat)

/-- Model of the `while True` pagination loop of `get_jira_issues`: request
at the current offset; on 200 extend the accumulator, advance the offset by
100 and stop once it reaches or exceeds the reported total; on any other
status stop immediately with the issues accumulated so far.  `fuel` bounds
the number of iterations (the Python loop is not syntactically bounded);
`none` means the fuel ran out before the loop terminated. -/
def fetchLoop (api : Nat → ApiResponse) (jql : String) :
    Nat → Nat → List SearchRequest → List RawIssue →
      Option (List SearchRequest × List RawIssue)
  | 0, _, _, _ => none
  | fuel + 1, startAt, reqs, acc =>
      match api startAt with
      | ApiResponse.ok total issues =>
          if total ≤ startAt + 100 then
            some (reqs ++ [mkRequest jql startAt], acc ++ issues)
          else
            fetchLoop api jql fuel (startAt + 100) (reqs ++ [mkRequest jql startAt])
              (acc ++ issues)
      | ApiResponse.err _ => some (reqs ++ [mkRequest jql startAt], acc)

/-- Model of `get_jira_issues`: reads the watermark from the destination,
formats it, builds the JQL filter and runs the pagination loop from offset 0
with page size 100.  Returns the requests issued and the issues gathered. -/
def get_jira_issues (projectKey : String) (dest : Destination)
    (api : Nat → ApiResponse) (fuel : Nat) :
    Option (List SearchRequest × List RawIssue) :=
  fetchLoop api
    (buildJql projectKey
      (format_timestamp (tsInputOfOpt (get_last_updated_timestamp dest).1)))
    fuel 0 [] []

/-- Modelled from the spec: the upsert-pipeline loading strategy (the dlt
`pipeline.run(..., write_disposition="merge", primary_key="id")` call in
`main`; the merge loader itself is library code outside src/).  A record
whose `id` is already stored replaces that row in place; otherwise the
record is appended. -/
def upsertRow : List NormalizedIssueRecord → NormalizedIssueRecord →
    List NormalizedIssueRecord
  | [], r => [r]
  | x :: rest, r => if x.id == r.id then r :: rest else x :: upsertRow rest r

/-- Modelled from the spec: loading a record sequence via the merge-mode
pipeline applies the keyed upsert record by record. -/
def mergeLoad (dest : List NormalizedIssueRecord)
    (records : List NormalizedIssueRecord) : List NormalizedIssueRecord :=
  records.foldl upsertRow dest

/-- Does `needle` occur at the head of the list? -/
def listStartsWith : List Char → List Char → Bool
  | [], _ => true
  | _ :: _, [] => false
  | a :: as, b :: bs => a == b && listStartsWith as bs

/-- Does `needle` occur anywhere in the list? -/
def containsSeq (needle : List Char) : List Char → Bool
  | [] => needle.isEmpty
  | c :: cs => listStartsWith needle (c :: cs) || containsSeq needle cs

/-- Substring test used to state properties of the built JQL strings. -/
def strContains (needle hay : String) : Bool :=
  containsSeq needle.data hay.data

/-- A fixed concrete issue used by witnesses. -/
def testIssue : RawIssue :=
  ⟨"10001", "DT-1", [("summary", PyVal.pstr "hello")]⟩

/-- Concrete pages for the 250-issue pagination witness: two full pages of
100 and a final page of 50. -/
def testPages (n : Nat) : List RawIssue :=
  if n < 200 then List.replicate 100 testIssue else List.replicate 50 testIssue

/-- Concrete destination rows for the watermark witness. -/
def rowsEx : List DestRow :=
  [⟨some "2024-01-01 00:00"⟩, ⟨some "2024-03-01 00:00"⟩]

/-- A concrete normalized record (first write). -/
def recA : NormalizedIssueRecord :=
  ⟨"10001", "DT-1", PyVal.pstr "first", PyVal.pstr "", PyVal.pnone,
    PyVal.pstr "", PyVal.pstr "", PyVal.pstr "", "\x7b\x7d"⟩

/-- A concrete normalized record with the same id (second write). -/
def recB : NormalizedIssueRecord :=
  ⟨"10001", "DT-1", PyVal.pstr "second", PyVal.pstr "Done", PyVal.pnone,
    PyVal.pstr "", PyVal.pstr "", PyVal.pstr "", "\x7b\x7d"⟩

/-! Theorems. -/

/-- C10: the record mapper's totality covers only absent sub-fields — when
`fields` binds the key `status` (or `issuetype`) to None rather than leaving
it absent, the mapping raises (`None.get(...)` is an `AttributeError`)
instead of producing the empty-string default. -/
theorem mapIssue_null_subfield_raises :
    mapIssue ⟨"10001", "DT-1", [("status", PyVal.pnone)]⟩ =
      Except.error "AttributeError" ∧
    mapIssue ⟨"10002", "DT-2", [("issuetype", PyVal.pnone)]⟩ =
      Except.error "AttributeError" :=
  ⟨rfl, rfl⟩

/-- Counterexample to C3: on a destination whose table holds one row with
`updated_date = ""`, the scalar `MAX(updated_date)` is the empty string, yet
the read returns None (the code tests `result[0]` for truthiness, and the
empty string is falsy), so the read does not return the scalar MAX. -/
theorem watermark_read_cex :
    (get_last_updated_timestamp ⟨some [⟨some ""⟩]⟩).1 = none ∧
    sqlMaxStr (([⟨some ""⟩] : List DestRow).map DestRow.updated_date) = some "" ∧
    (none : Option String) ≠ some "" :=
  ⟨rfl, rfl, by decide⟩

/-- C3 (amended): the watermark read returns None without issuing any data
query when the destination table does not exist (never raising), returns
None when the table is empty or when `MAX(updated_date)` is NULL or the
empty string (the scalar is tested for truthiness), and otherwise returns
the scalar `MAX(updated_date)` over the table's rows. -/
theorem watermark_read_amended :
    (∀ dest : Destination, dest.table = none →
        (get_last_updated_timestamp dest).1 = none ∧
        DbEvent.dataQuery ∉ (get_last_updated_timestamp dest).2) ∧
    (∀ (dest : Destination) (rows : List DestRow), dest.table = some rows →
        sqlMaxStr (rows.map DestRow.updated_date) = none →
        (get_last_updated_timestamp dest).1 = none) ∧
    (∀ (dest : Destination) (rows : List DestRow) (s : String), dest.table = some rows →
        sqlMaxStr (rows.map DestRow.updated_date) = some s → s ≠ "" →
        (get_last_updated_timestamp dest).1 = some s) ∧
    (∀ (dest : Destination) (rows : List DestRow), dest.table = some rows →
        sqlMaxStr (rows.map DestRow.updated_date) = some "" →
        (get_last_updated_timestamp dest).1 = none) := by
  refine ⟨?_, ?_, ?_, ?_⟩
  · intro dest h
    simp [get_last_updated_timestamp, h]
  · intro dest rows h hmax
    simp [get_last_updated_timestamp, h, hmax]
  · intro dest rows s h hmax hne
    simp [get_last_updated_timestamp, h, hmax, hne]
  · intro dest rows h hmax
    simp [get_last_updated_timestamp, h, hmax]

/-- Witness for the amended C3 at the spec's concrete example: the table
holds rows with updated dates 2024-01-01 00:00 and 2024-03-01 00:00, and the
read returns 2024-03-01 00:00. -/
theorem watermark_read_amended_witness :
    (⟨some rowsEx⟩ : Destination).table = some rowsEx ∧
    sqlMaxStr (rowsEx.map DestRow.updated_date) = some "2024-03-01 00:00" ∧
    "2024-03-01 00:00" ≠ "" ∧
    (get_last_updated_timestamp ⟨some rowsEx⟩).1 = some "2024-03-01 00:00" :=
  ⟨rfl, by decide, by decide,
    watermark_read_amended.2.2.1 ⟨some rowsEx⟩ rowsEx "2024-03-01 00:00" rfl
      (by decide) (by decide)⟩

/-- Counterexample to C9: on a destination without the table, the watermark
read opens a connection but its event trace contains no close event — the
connection opened by the operation is not released on that exit path. -/
theorem connection_release_cex :
    DbEvent.connOpen ∈ (get_last_updated_timestamp ⟨none⟩).2 ∧
    DbEvent.connClose ∉ (get_last_updated_timestamp ⟨none⟩).2 := by
  decide

/-- C9 (amended): on every exit path of the watermark read — whether or not
the destination table exists — exactly one connection is opened and it is
never closed by the operation; release is left to garbage collection or
process exit (the loader in `main` delegates its own connection handling to
the external pipeline library). -/
theorem connection_never_closed (dest : Destination) :
    DbEvent.connOpen ∈ (get_last_updated_timestamp dest).2 ∧
    DbEvent.connClose ∉ (get_last_updated_timestamp dest).2 ∧
    ((get_last_updated_timestamp dest).2.filter
        (fun e => e == DbEvent.connOpen)).length = 1 := by
  obtain ⟨table⟩ := dest
  cases table with
  | none => decide
  | some rows =>
      refine ⟨?_, ?_, ?_⟩ <;> simp [get_last_updated_timestamp]

/-- Rows present after an upsert are old rows or the new record. -/
lemma upsertRow_mem (dest : List NormalizedIssueRecord)
    (r y : NormalizedIssueRecord) (h : y ∈ upsertRow dest r) :
    y ∈ dest ∨ y = r := by
  induction dest with
  | nil =>
      simp [upsertRow] at h
      exact Or.inr h
  | cons x rest ih =>
      by_cases hx : (x.id == r.id) = true
      · simp only [upsertRow, hx, if_true, List.mem_cons] at h
        rcases h with rfl | h
        · exact Or.inr rfl
        · exact Or.inl (List.mem_cons_of_mem _ h)
      · simp only [upsertRow, hx, if_false, Bool.false_eq_true, List.mem_cons] at h
        rcases h with rfl | h
        · exact Or.inl (List.mem_cons_self _ _)
        · rcases ih h with h' | h'
          · exact Or.inl (List.mem_cons_of_mem _ h')
          · exact Or.inr h'

/-- Upserting preserves uniqueness of the id column. -/
lemma upsertRow_id_nodup (dest : List NormalizedIssueRecord)
    (r : NormalizedIssueRecord)
    (h : (dest.map (fun x => x.id)).Nodup) :
    ((upsertRow dest r).map (fun x => x.id)).Nodup := by
  induction dest with
  | nil => simp [upsertRow]
  | cons x rest ih =>
      rw [List.map_cons, List.nodup_cons] at h
      by_cases hx : (x.id == r.id) = true
      · have hxeq : x.id = r.id := by simpa using hx
        simp only [upsertRow, hx, if_true, List.map_cons, List.nodup_cons]
        exact ⟨by rw [← hxeq]; exact h.1, h.2⟩
      · have hxne : ¬x.id = r.id := by simpa using hx
        simp only [upsertRow, hx, if_false, Bool.false_eq_true, List.map_cons,
          List.nodup_cons]
        refine ⟨?_, ih h.2⟩
        intro hmem
        obtain ⟨y, hy, hyid⟩ := List.mem_map.mp hmem
        rcases upsertRow_mem rest r y hy with h' | h'
        · exact h.1 (hyid ▸ List.mem_map_of_mem _ h')
        · exact hxne (by rw [← hyid, h'])

/-- With unique ids, the rows with the upserted id after an upsert are
exactly the new record. -/
lemma upsertRow_filter_eq (dest : List NormalizedIssueRecord)
    (r : NormalizedIssueRecord)
    (h : (dest.map (fun x => x.id)).Nodup) :
    (upsertRow dest r).filter (fun x => x.id == r.id) = [r] := by
  induction dest with
  | nil => simp [upsertRow]
  | cons x rest ih =>
      rw [List.map_cons, List.nodup_cons] at h
      by_cases hx : (x.id == r.id) = true
      · have hxeq : x.id = r.id := by simpa using hx
        have hrest : rest.filter (fun x => x.id == r.id) = [] := by
          rw [List.filter_eq_nil_iff]
          intro y hy hyid
          have hyeq : y.id = r.id := by simpa using hyid
          exact h.1 (by rw [← hxeq] at hyeq; exact hyeq ▸ List.mem_map_of_mem _ hy)
        simp only [upsertRow, hx, if_true, List.filter_cons]
        simp [hrest]
      · simp [upsertRow, hx, List.filter_cons, ih h.2]

/-- The upserted id is present in the result. -/
lemma upsertRow_mem_self (dest : List NormalizedIssueRecord)
    (r : NormalizedIssueRecord) :
    ∃ x ∈ upsertRow dest r, x.id = r.id := by
  induction dest with
  | nil => exact ⟨r, by simp [upsertRow]⟩
  | cons y rest ih =>
      by_cases hy : y.id == r.id
      · exact ⟨r, by simp [upsertRow, hy]⟩
      · obtain ⟨x, hx, hxid⟩ := ih
        exact ⟨x, by simp [upsertRow, hy, hx], hxid⟩

/-- Upserting a record whose id is already stored does not change the number
of rows. -/
lemma upsertRow_length_of_mem (dest : List NormalizedIssueRecord)
    (r : NormalizedIssueRecord) (h : ∃ x ∈ dest, x.id = r.id) :
    (upsertRow dest r).length = dest.length := by
  induction dest with
  | nil => simp at h
  | cons y rest ih =>
      by_cases hy : y.id == r.id
      · simp [upsertRow, hy]
      · have hyne : ¬y.id = r.id := by simpa using hy
        obtain ⟨x, hx, hxid⟩ := h
        rcases List.mem_cons.mp hx with rfl | hx'
        · exact absurd hxid hyne
        · simp [upsertRow, hy, ih ⟨x, hx', hxid⟩]

/-- C2: loading the same id twice through the merge-keyed loader leaves
exactly one row for that id, carrying the second write's field values; ids
stay unique, and the second load of the id does not add a row (it replaces
in place), so reruns with overlapping records are idempotent. -/
theorem merge_upsert_idempotent (dest : List NormalizedIssueRecord)
    (r1 r2 : NormalizedIssueRecord) (hid : r1.id = r2.id)
    (hnd : (dest.map (fun x => x.id)).Nodup) :
    (mergeLoad dest [r1, r2]).filter (fun x => x.id == r2.id) = [r2] ∧
    ((mergeLoad dest [r1, r2]).map (fun x => x.id)).Nodup ∧
    (mergeLoad dest [r1, r2]).length = (mergeLoad dest [r1]).length := by
  have h1 : mergeLoad dest [r1, r2] = upsertRow (upsertRow dest r1) r2 := rfl
  have h2 : mergeLoad dest [r1] = upsertRow dest r1 := rfl
  have hnd1 : ((upsertRow dest r1).map (fun x => x.id)).Nodup :=
    upsertRow_id_nodup dest r1 hnd
  refine ⟨?_, ?_, ?_⟩
  · rw [h1]
    exact upsertRow_filter_eq _ r2 hnd1
  · rw [h1]
    exact upsertRow_id_nodup _ r2 hnd1
  · rw [h1, h2]
    obtain ⟨x, hx, hxid⟩ := upsertRow_mem_self dest r1
    exact upsertRow_length_of_mem _ r2 ⟨x, hx, by rw [hxid, hid]⟩

/-- Witness for C2 at concrete records: loading `recA` then `recB` (same id,
different summary) into an empty destination keeps exactly the row `recB`. -/
theorem merge_upsert_idempotent_witness :
    recA.id = recB.id ∧
    (([] : List NormalizedIssueRecord).map (fun x => x.id)).Nodup ∧
    (mergeLoad [] [recA, recB]).filter (fun x => x.id == recB.id) = [recB] ∧
    (mergeLoad [] [recA, recB]).length = (mergeLoad [] [recA]).length :=
  ⟨rfl, by simp,
    (merge_upsert_idempotent [] recA recB rfl (by simp)).1,
    (merge_upsert_idempotent [] recA recB rfl (by simp)).2.2⟩

/-- The assignee expression of the mapper succeeds on well-formed input and
yields None when the assignee sub-field is absent. -/
lemma assigneeStep (fields : List (String × PyVal)) (hA : assigneeOk fields = true) :
    ∃ nm, (if pyTruthy ((dictGet fields "assignee").getD PyVal.pnone) then
             pySubscript ((dictGet fields "assignee").getD PyVal.pnone) "displayName"
           else Except.ok PyVal.pnone) = Except.ok nm ∧
      (dictGet fields "assignee" = none → nm = PyVal.pnone) := by
  unfold assigneeOk at hA
  cases h0 : dictGet fields "assignee" with
  | none =>
      refine ⟨PyVal.pnone, ?_, fun _ => rfl⟩
      simp [h0, pyTruthy]
  | some v =>
      rw [h0] at hA
      simp only [Option.getD_some] at hA
      cases v with
      | pnone => exact ⟨PyVal.pnone, by simp [h0, pyTruthy], by simp [h0]⟩
      | pstr s =>
          have ht : pyTruthy (PyVal.pstr s) = false := by simpa using hA
          exact ⟨PyVal.pnone, by simp [h0, ht], by simp [h0]⟩
      | pdict d =>
          by_cases ht : pyTruthy (PyVal.pdict d)
          · have hsome : (dictGet d "displayName").isSome := by
              simp [ht] at hA
              exact hA
            obtain ⟨nm, hnm⟩ := Option.isSome_iff_exists.mp hsome
            refine ⟨nm, ?_, by simp [h0]⟩
            simp [h0, ht, pySubscript, hnm]
          · exact ⟨PyVal.pnone, by simp [h0, ht], by simp [h0]⟩

/-- The `.get(k, dict).get("name", "")` chain of the mapper succeeds on
well-formed input and yields the empty string when the sub-field is absent. -/
lemma optFieldStep (fields : List (String × PyVal)) (k : String)
    (hk : optFieldOk fields k = true) :
    ∃ v, pyGetMeth ((dictGet fields k).getD (PyVal.pdict [])) "name" (PyVal.pstr "") =
        Except.ok v ∧ (dictGet fields k = none → v = PyVal.pstr "") := by
  unfold optFieldOk at hk
  cases h0 : dictGet fields k with
  | none =>
      refine ⟨PyVal.pstr "", ?_, fun _ => rfl⟩
      simp [h0, pyGetMeth, dictGet]
  | some v =>
      rw [h0] at hk
      cases v with
      | pdict d =>
          exact ⟨(dictGet d "name").getD (PyVal.pstr ""),
            by simp [h0, pyGetMeth], by simp [h0]⟩
      | pnone => simp at hk
      | pstr s => simp at hk

/-- C7: the mapper is total over raw issues whose optional sub-fields are
absent or well-formed, and on such inputs a missing `assignee` maps to None,
while missing `fields.status` / `fields.issuetype` map the corresponding
output fields to the empty string. -/
theorem mapIssue_total_defaults (id key : String)
    (fields : List (String × PyVal))
    (hA : assigneeOk fields = true)
    (hS : optFieldOk fields "status" = true)
    (hI : optFieldOk fields "issuetype" = true) :
    ∃ rec, mapIssue ⟨id, key, fields⟩ = Except.ok rec ∧
      (dictGet fields "assignee" = none → rec.assignee = PyVal.pnone) ∧
      (dictGet fields "status" = none → rec.status = PyVal.pstr "") ∧
      (dictGet fields "issuetype" = none → rec.issue_type = PyVal.pstr "") := by
  obtain ⟨nm, h1, h1'⟩ := assigneeStep fields hA
  obtain ⟨sv, h2, h2'⟩ := optFieldStep fields "status" hS
  obtain ⟨iv, h3, h3'⟩ := optFieldStep fields "issuetype" hI
  refine ⟨{ id := id, key := key,
            summary := (dictGet fields "summary").getD (PyVal.pstr ""),
            status := sv, assignee := nm,
            created_date := (dictGet fields "created").getD (PyVal.pstr ""),
            updated_date := (dictGet fields "updated").getD (PyVal.pstr ""),
            issue_type := iv,
            fields_json := jsonDumpsVal (PyVal.pdict fields) },
          ?_, fun h => h1' h, fun h => h2' h, fun h => h3' h⟩
  simp only [mapIssue, h1, h2, h3]

/-- Witness for C7 at a concrete issue with absent assignee, status and
issuetype sub-fields. -/
theorem mapIssue_total_defaults_witness :
    assigneeOk [("summary", PyVal.pstr "hello")] = true ∧
    optFieldOk [("summary", PyVal.pstr "hello")] "status" = true ∧
    optFieldOk [("summary", PyVal.pstr "hello")] "issuetype" = true ∧
    (∃ rec, mapIssue ⟨"10001", "DT-1", [("summary", PyVal.pstr "hello")]⟩ =
        Except.ok rec ∧
      (dictGet [("summary", PyVal.pstr "hello")] "assignee" = none →
        rec.assignee = PyVal.pnone) ∧
      (dictGet [("summary", PyVal.pstr "hello")] "status" = none →
        rec.status = PyVal.pstr "") ∧
      (dictGet [("summary", PyVal.pstr "hello")] "issuetype" = none →
        rec.issue_type = PyVal.pstr "")) :=
  ⟨rfl, rfl, rfl, mapIssue_total_defaults "10001" "DT-1" _ rfl rfl rfl⟩

/-- Closed form of the pagination loop against an always-successful API with
a fixed reported total: requests go out at offsets startAt, startAt+100, …
until the advanced offset reaches the total, and the pages are concatenated
in arrival order. -/
lemma fetchLoop_fixed_total (api : Nat → ApiResponse) (jql : String) (T : Nat)
    (pages : Nat → List RawIssue) (hapi : ∀ n, api n = ApiResponse.ok T (pages n)) :
    ∀ (fuel startAt : Nat) (reqs : List SearchRequest) (acc : List RawIssue),
      (T - startAt - 1) / 100 + 1 ≤ fuel →
      fetchLoop api jql fuel startAt reqs acc =
        some (reqs ++
                (List.range' startAt ((T - startAt - 1) / 100 + 1) 100).map (mkRequest jql),
              acc ++
                ((List.range' startAt ((T - startAt - 1) / 100 + 1) 100).map pages).flatten) := by
  intro fuel
  induction fuel with
  | zero =>
      intro startAt reqs acc h
      exact absurd h (by omega)
  | succ fuel ih =>
      intro startAt reqs acc h
      by_cases hstop : T ≤ startAt + 100
      · have hc : (T - startAt - 1) / 100 + 1 = 1 := by omega
        rw [hc]
        simp [fetchLoop, hapi, hstop, List.range']
      · have hc : (T - startAt - 1) / 100 + 1 =
            ((T - (startAt + 100) - 1) / 100 + 1) + 1 := by omega
        rw [hc]
        have hrec := ih (startAt + 100) (reqs ++ [mkRequest jql startAt])
          (acc ++ pages startAt) (by omega)
        simp only [fetchLoop, hapi, hstop, if_false]
        rw [hrec]
        simp [List.range', List.append_assoc]

/-- The fixed-total pagination law lifted to `get_jira_issues`. -/
lemma get_jira_issues_fixed_total (pk : String) (dest : Destination) (T : Nat)
    (pages : Nat → List RawIssue) (fuel : Nat)
    (hfuel : (T - 1) / 100 + 1 ≤ fuel) :
    ∃ reqs issues,
      get_jira_issues pk dest (fun n => ApiResponse.ok T (pages n)) fuel =
        some (reqs, issues) ∧
      reqs.map SearchRequest.startAt = List.range' 0 ((T - 1) / 100 + 1) 100 ∧
      (∀ r ∈ reqs, r.maxResults = 100) ∧
      issues = ((List.range' 0 ((T - 1) / 100 + 1) 100).map pages).flatten := by
  unfold get_jira_issues
  have h := fetchLoop_fixed_total (fun n => ApiResponse.ok T (pages n))
    (buildJql pk
      (format_timestamp (tsInputOfOpt (get_last_updated_timestamp dest).1)))
    T pages (fun _ => rfl) fuel 0 [] []
    (by simpa using hfuel)
  rw [show T - 0 - 1 = T - 1 from by omega] at h
  refine ⟨_, _, h, ?_, ?_, by simp⟩
  · have hcomp : SearchRequest.startAt ∘
        mkRequest (buildJql pk
          (format_timestamp (tsInputOfOpt (get_last_updated_timestamp dest).1))) = id := rfl
    simp only [List.nil_append, List.map_map, hcomp, List.map_id]
  · intro r hr
    simp only [List.nil_append, List.mem_map] at hr
    obtain ⟨n, _, rfl⟩ := hr
    rfl

/-- C1: against an API whose responses report a fixed total with pages of at
most 100 issues, the fetch requests pages of size 100 at offsets 0, 100, …,
advancing by 100 after each successful page until the offset reaches or
exceeds the total, and concatenates the pages in arrival order; in
particular with total 250 it issues exactly the 3 requests with startAt 0,
100, 200 and returns the 250 concatenated issues. -/
theorem fetch_pagination_spec :
    (∀ (pk : String) (dest : Destination) (T : Nat) (pages : Nat → List RawIssue)
       (fuel : Nat), (T - 1) / 100 + 1 ≤ fuel →
       ∃ reqs issues,
         get_jira_issues pk dest (fun n => ApiResponse.ok T (pages n)) fuel =
           some (reqs, issues) ∧
         reqs.map SearchRequest.startAt = List.range' 0 ((T - 1) / 100 + 1) 100 ∧
         (∀ r ∈ reqs, r.maxResults = 100) ∧
         issues = ((List.range' 0 ((T - 1) / 100 + 1) 100).map pages).flatten) ∧
    (∀ (pk : String) (dest : Destination) (pages : Nat → List RawIssue),
       (pages 0).length = 100 → (pages 100).length = 100 → (pages 200).length = 50 →
       ∃ reqs issues,
         get_jira_issues pk dest (fun n => ApiResponse.ok 250 (pages n)) 3 =
           some (reqs, issues) ∧
         reqs.map SearchRequest.startAt = [0, 100, 200] ∧
         issues = pages 0 ++ (pages 100 ++ pages 200) ∧
         issues.length = 250) := by
  refine ⟨fun pk dest T pages fuel h => get_jira_issues_fixed_total pk dest T pages fuel h,
          ?_⟩
  intro pk dest pages h0 h1 h2
  obtain ⟨reqs, issues, heq, hstart, _, hiss⟩ :=
    get_jira_issues_fixed_total pk dest 250 pages 3 (by omega)
  have hr : List.range' 0 ((250 - 1) / 100 + 1) 100 = [0, 100, 200] := rfl
  refine ⟨reqs, issues, heq, by rw [hstart, hr], ?_, ?_⟩
  · rw [hiss, hr]
    simp
  · rw [hiss, hr]
    simp [h0, h1, h2]

/-- Witness for C1 at the concrete 250-issue mock API. -/
theorem fetch_pagination_spec_witness :
    (testPages 0).length = 100 ∧ (testPages 100).length = 100 ∧
    (testPages 200).length = 50 ∧
    (∃ reqs issues,
      get_jira_issues "DT" ⟨none⟩ (fun n => ApiResponse.ok 250 (testPages n)) 3 =
        some (reqs, issues) ∧
      reqs.map SearchRequest.startAt = [0, 100, 200] ∧
      issues = testPages 0 ++ (testPages 100 ++ testPages 200) ∧
      issues.length = 250) :=
  ⟨by simp [testPages], by simp [testPages], by simp [testPages],
    fetch_pagination_spec.2 "DT" ⟨none⟩ testPages (by simp [testPages])
      (by simp [testPages]) (by simp [testPages])⟩

/-- Every request logged by the pagination loop carries the loop's JQL. -/
lemma fetchLoop_jql_mem (api : Nat → ApiResponse) (jql : String) :
    ∀ (fuel startAt : Nat) (reqs0 : List SearchRequest) (acc : List RawIssue)
      (out : List SearchRequest × List RawIssue),
      fetchLoop api jql fuel startAt reqs0 acc = some out →
      ∀ r ∈ out.1, r ∈ reqs0 ∨ r.jql = jql := by
  intro fuel
  induction fuel with
  | zero =>
      intro startAt reqs0 acc out h
      simp [fetchLoop] at h
  | succ fuel ih =>
      intro startAt reqs0 acc out h r hr
      simp only [fetchLoop] at h
      cases hapi : api startAt with
      | ok total issues =>
          simp only [hapi] at h
          by_cases hstop : total ≤ startAt + 100
          · rw [if_pos hstop] at h
            injection h with h
            subst h
            rcases List.mem_append.mp hr with h' | h'
            · exact Or.inl h'
            · have : r = mkRequest jql startAt := by simpa using h'
              exact Or.inr (by rw [this]; rfl)
          · rw [if_neg hstop] at h
            rcases ih _ _ _ _ h r hr with h' | h'
            · rcases List.mem_append.mp h' with h'' | h''
              · exact Or.inl h''
              · have : r = mkRequest jql startAt := by simpa using h''
                exact Or.inr (by rw [this]; rfl)
            · exact Or.inr h'
      | err c =>
          simp only [hapi] at h
          injection h with h
          subst h
          rcases List.mem_append.mp hr with h' | h'
          · exact Or.inl h'
          · have : r = mkRequest jql startAt := by simpa using h'
            exact Or.inr (by rw [this]; rfl)

/-- Counterexample to C4: with no watermark, the single issued request's JQL
is exactly the project restriction with no ORDER BY clause at all — the full
load is not ordered by `created` descending (the code never appends any
ORDER BY in this branch). -/
theorem fetch_full_load_cex :
    get_jira_issues "DT" ⟨none⟩ (fun _ => ApiResponse.ok 0 []) 1 =
      some ([mkRequest "project = \"DT\"" 0], []) ∧
    strContains "ORDER BY created DESC" (mkRequest "project = \"DT\"" 0).jql = false ∧
    strContains "ORDER BY" (mkRequest "project = \"DT\"" 0).jql = false :=
  ⟨rfl, by decide, by decide⟩

/-- C4 (amended): whenever the watermark is absent, every request's query
filter is exactly the project restriction — it contains no `updated >=`
bound and no ORDER BY clause (the API's default ordering applies, not
`ORDER BY created DESC`). -/
theorem fetch_full_load_amended :
    (∀ (pk : String) (dest : Destination) (api : Nat → ApiResponse) (fuel : Nat)
       (reqs : List SearchRequest) (issues : List RawIssue),
       (get_last_updated_timestamp dest).1 = none →
       get_jira_issues pk dest api fuel = some (reqs, issues) →
       ∀ r ∈ reqs, r.jql = "project = \"" ++ pk ++ "\"") ∧
    strContains "ORDER BY" "project = \"DT\"" = false ∧
    strContains "updated >=" "project = \"DT\"" = false := by
  refine ⟨?_, by decide, by decide⟩
  intro pk dest api fuel reqs issues hw hrun r hr
  unfold get_jira_issues at hrun
  rw [hw] at hrun
  rcases fetchLoop_jql_mem api _ fuel 0 [] [] (reqs, issues) hrun r hr with h' | h'
  · simp at h'
  · simpa [tsInputOfOpt, format_timestamp, buildJql] using h'

/-- Witness for the amended C4 at a concrete empty destination. -/
theorem fetch_full_load_amended_witness :
    (get_last_updated_timestamp ⟨none⟩).1 = none ∧
    get_jira_issues "DT" ⟨none⟩ (fun _ => ApiResponse.ok 0 []) 1 =
      some ([mkRequest "project = \"DT\"" 0], []) ∧
    (∀ r ∈ [mkRequest "project = \"DT\"" 0],
      r.jql = "project = \"" ++ "DT" ++ "\"") :=
  ⟨rfl, rfl, fetch_full_load_amended.1 "DT" ⟨none⟩ (fun _ => ApiResponse.ok 0 []) 1
    [mkRequest "project = \"DT\"" 0] [] rfl rfl⟩

/-- C5: whenever the formatted watermark is non-null, every request's query
filter restricts to the project AND to `updated >=` the watermark, ordered
by `updated` descending. -/
theorem fetch_incremental_jql (pk : String) (dest : Destination)
    (api : Nat → ApiResponse) (fuel : Nat) (reqs : List SearchRequest)
    (issues : List RawIssue) (s w : String)
    (hw : (get_last_updated_timestamp dest).1 = some s)
    (hf : format_timestamp (TsInput.str s) = some w)
    (hrun : get_jira_issues pk dest api fuel = some (reqs, issues)) :
    ∀ r ∈ reqs,
      r.jql = "project = \"" ++ pk ++ "\" AND updated >= \"" ++ w ++
        "\" ORDER BY updated DESC" := by
  intro r hr
  unfold get_jira_issues at hrun
  rw [hw] at hrun
  simp only [tsInputOfOpt] at hrun
  rw [hf] at hrun
  rcases fetchLoop_jql_mem api _ fuel 0 [] [] (reqs, issues) hrun r hr with h' | h'
  · simp at h'
  · simpa [buildJql] using h'

/-- Witness for C5 at a concrete destination whose watermark is
2024-03-01 00:00. -/
theorem fetch_incremental_jql_witness :
    (get_last_updated_timestamp ⟨some [⟨some "2024-03-01 00:00"⟩]⟩).1 =
      some "2024-03-01 00:00" ∧
    format_timestamp (TsInput.str "2024-03-01 00:00") = some "2024-03-01 00:00" ∧
    get_jira_issues "DT" ⟨some [⟨some "2024-03-01 00:00"⟩]⟩
        (fun _ => ApiResponse.ok 0 []) 1 =
      some ([mkRequest
        "project = \"DT\" AND updated >= \"2024-03-01 00:00\" ORDER BY updated DESC" 0],
        []) ∧
    (∀ r ∈ [mkRequest
        "project = \"DT\" AND updated >= \"2024-03-01 00:00\" ORDER BY updated DESC" 0],
      r.jql = "project = \"" ++ "DT" ++ "\" AND updated >= \"" ++
        "2024-03-01 00:00" ++ "\" ORDER BY updated DESC") :=
  ⟨rfl, rfl, rfl,
    fetch_incremental_jql "DT" ⟨some [⟨some "2024-03-01 00:00"⟩]⟩
      (fun _ => ApiResponse.ok 0 []) 1
      [mkRequest
        "project = \"DT\" AND updated >= \"2024-03-01 00:00\" ORDER BY updated DESC" 0]
      [] "2024-03-01 00:00" "2024-03-01 00:00" rfl rfl rfl⟩

/-- Closed form of the pagination loop when the first `k` pages succeed
(with totals that keep the loop going) and page `k` returns a non-success
status: the loop stops at page `k` and returns exactly the issues of the
`k` preceding successful pages. -/
lemma fetchLoop_error_partial (api : Nat → ApiResponse) (jql : String) (code : Nat) :
    ∀ (k : Nat) (totals : Nat → Nat) (pages : Nat → List RawIssue)
      (fuel startAt : Nat) (reqs : List SearchRequest) (acc : List RawIssue),
      (∀ j, j < k → api (startAt + 100 * j) = ApiResponse.ok (totals j) (pages j) ∧
        startAt + 100 * (j + 1) < totals j) →
      api (startAt + 100 * k) = ApiResponse.err code →
      k + 1 ≤ fuel →
      fetchLoop api jql fuel startAt reqs acc =
        some (reqs ++ (List.range' startAt (k + 1) 100).map (mkRequest jql),
              acc ++ ((List.range k).map pages).flatten) := by
  intro k
  induction k with
  | zero =>
      intro totals pages fuel startAt reqs acc hok herr hfuel
      obtain ⟨f, rfl⟩ : ∃ f, fuel = f + 1 := ⟨fuel - 1, by omega⟩
      simp only [Nat.mul_zero, Nat.add_zero] at herr
      simp [fetchLoop, herr, List.range']
  | succ k ih =>
      intro totals pages fuel startAt reqs acc hok herr hfuel
      obtain ⟨f, rfl⟩ : ∃ f, fuel = f + 1 := ⟨fuel - 1, by omega⟩
      have h0 := hok 0 (by omega)
      simp only [Nat.mul_zero, Nat.add_zero, Nat.zero_add, Nat.mul_one] at h0
      have hok' : ∀ j, j < k →
          api (startAt + 100 + 100 * j) = ApiResponse.ok (totals (j + 1)) (pages (j + 1)) ∧
          startAt + 100 + 100 * (j + 1) < totals (j + 1) := by
        intro j hj
        have hj1 := hok (j + 1) (by omega)
        constructor
        · have e : startAt + 100 + 100 * j = startAt + 100 * (j + 1) := by ring
          rw [e]
          exact hj1.1
        · have e : startAt + 100 + 100 * (j + 1) = startAt + 100 * (j + 1 + 1) := by ring
          rw [e]
          exact hj1.2
      have herr' : api (startAt + 100 + 100 * k) = ApiResponse.err code := by
        have e : startAt + 100 + 100 * k = startAt + 100 * (k + 1) := by ring
        rw [e]
        exact herr
      have hrec := ih (fun j => totals (j + 1)) (fun j => pages (j + 1)) f (startAt + 100)
        (reqs ++ [mkRequest jql startAt]) (acc ++ pages 0) hok' herr' (by omega)
      have hstop : ¬ totals 0 ≤ startAt + 100 := by omega
      simp only [fetchLoop, h0.1]
      rw [if_neg hstop, hrec]
      simp [List.range', List.range_succ_eq_map, List.append_assoc, Function.comp,
        Nat.succ_eq_add_one]
      rfl

/-- The partial-result law lifted to `get_jira_issues`. -/
lemma get_jira_issues_error_partial (pk : String) (dest : Destination)
    (api : Nat → ApiResponse) (k : Nat) (totals : Nat → Nat)
    (pages : Nat → List RawIssue) (code fuel : Nat)
    (hok : ∀ j, j < k → api (100 * j) = ApiResponse.ok (totals j) (pages j) ∧
      100 * (j + 1) < totals j)
    (herr : api (100 * k) = ApiResponse.err code)
    (hfuel : k + 1 ≤ fuel) :
    ∃ reqs,
      get_jira_issues pk dest api fuel =
        some (reqs, ((List.range k).map pages).flatten) ∧
      reqs.map SearchRequest.startAt = List.range' 0 (k + 1) 100 := by
  unfold get_jira_issues
  have h := fetchLoop_error_partial api
    (buildJql pk (format_timestamp (tsInputOfOpt (get_last_updated_timestamp dest).1)))
    code k totals pages fuel 0 [] []
    (by intro j hj; simpa using hok j hj) (by simpa using herr) hfuel
  refine ⟨_, by simpa using h, ?_⟩
  have hcomp : SearchRequest.startAt ∘
      mkRequest (buildJql pk
        (format_timestamp (tsInputOfOpt (get_last_updated_timestamp dest).1))) = id := rfl
  simp only [List.map_map, hcomp, List.map_id]

/-- C6: whenever the API returns a non-success response at some page index
(after successful pages whose totals keep the loop going), the fetch stops
at that page and returns exactly the issues accumulated from the preceding
successful pages, without raising; in particular, a 500 on the second page
yields only the first page's issues. -/
theorem fetch_error_partial_spec :
    (∀ (pk : String) (dest : Destination) (api : Nat → ApiResponse) (k : Nat)
       (totals : Nat → Nat) (pages : Nat → List RawIssue) (code fuel : Nat),
       (∀ j, j < k → api (100 * j) = ApiResponse.ok (totals j) (pages j) ∧
         100 * (j + 1) < totals j) →
       api (100 * k) = ApiResponse.err code →
       k + 1 ≤ fuel →
       ∃ reqs,
         get_jira_issues pk dest api fuel =
           some (reqs, ((List.range k).map pages).flatten) ∧
         reqs.map SearchRequest.startAt = List.range' 0 (k + 1) 100) ∧
    (∀ (pk : String) (dest : Destination) (T : Nat) (firstPage : List RawIssue),
       100 < T →
       ∃ reqs,
         get_jira_issues pk dest
             (fun n => if n = 0 then ApiResponse.ok T firstPage else ApiResponse.err 500)
             2 =
           some (reqs, firstPage) ∧
         reqs.map SearchRequest.startAt = [0, 100]) := by
  refine ⟨fun pk dest api k totals pages code fuel hok herr hfuel =>
            get_jira_issues_error_partial pk dest api k totals pages code fuel
              hok herr hfuel, ?_⟩
  intro pk dest T firstPage hT
  obtain ⟨reqs, heq, hstart⟩ := get_jira_issues_error_partial pk dest
    (fun n => if n = 0 then ApiResponse.ok T firstPage else ApiResponse.err 500)
    1 (fun _ => T) (fun _ => firstPage) 500 2
    (by intro j hj; interval_cases j; simpa using hT)
    (by norm_num) (by omega)
  refine ⟨reqs, ?_, by simpa using hstart⟩
  simpa using heq

/-- Witness for C6 at the concrete mocked API whose second page is a 500. -/
theorem fetch_error_partial_spec_witness :
    (100 < 250) ∧
    (∃ reqs,
      get_jira_issues "DT" ⟨none⟩
          (fun n => if n = 0 then ApiResponse.ok 250 (List.replicate 100 testIssue)
                    else ApiResponse.err 500) 2 =
        some (reqs, List.replicate 100 testIssue) ∧
      reqs.map SearchRequest.startAt = [0, 100]) :=
  ⟨by omega,
    fetch_error_partial_spec.2 "DT" ⟨none⟩ 250 (List.replicate 100 testIssue)
      (by omega)⟩

/-- Parsing a rendered digit gives the digit back. -/
lemma digitVal_digitChar (k : Nat) (h : k < 10) :
    digitVal (Nat.digitChar k) = some k := by
  interval_cases k <;> decide

/-- Rendered digits are never the letter Z. -/
lemma digitChar_ne_Z (k : Nat) (h : k < 10) : Nat.digitChar k ≠ 'Z' := by
  interval_cases k <;> decide

/-- Parsing a two-digit rendering gives the number back. -/
lemma parse2_pad2 (n : Nat) (rest : List Char) (h : n ≤ 99) :
    parse2 (pad2 n ++ rest) = some (n, rest) := by
  have h1 := digitVal_digitChar (n / 10 % 10) (by omega)
  have h2 := digitVal_digitChar (n % 10) (by omega)
  simp only [pad2, List.cons_append, List.nil_append, parse2, h1, h2,
    Option.some.injEq, Prod.mk.injEq]
  exact ⟨by omega, trivial⟩

/-- Parsing a four-digit rendering gives the number back. -/
lemma parse4_pad4 (n : Nat) (rest : List Char) (h : n ≤ 9999) :
    parse4 (pad4 n ++ rest) = some (n, rest) := by
  have h1 := digitVal_digitChar (n / 1000 % 10) (by omega)
  have h2 := digitVal_digitChar (n / 100 % 10) (by omega)
  have h3 := digitVal_digitChar (n / 10 % 10) (by omega)
  have h4 := digitVal_digitChar (n % 10) (by omega)
  simp only [pad4, List.cons_append, List.nil_append, parse4, h1, h2, h3, h4,
    Option.some.injEq, Prod.mk.injEq]
  exact ⟨by omega, trivial⟩

/-- The digit scan stops immediately on a non-digit head (or the end). -/
lemma takeDigits_stop (rest : List Char)
    (h : rest = [] ∨ ∃ c cs, rest = c :: cs ∧ digitVal c = none) :
    takeDigits rest = ([], rest) := by
  rcases h with rfl | ⟨c, cs, rfl, hc⟩
  · rfl
  · simp [takeDigits, hc]

/-- Scanning a six-digit rendering followed by a non-digit boundary yields
the six digits and the boundary. -/
lemma takeDigits_pad6 (n : Nat) (rest : List Char)
    (hrest : takeDigits rest = ([], rest)) :
    takeDigits (pad6 n ++ rest) =
      ([n / 100000 % 10, n / 10000 % 10, n / 1000 % 10, n / 100 % 10,
        n / 10 % 10, n % 10], rest) := by
  have h1 := digitVal_digitChar (n / 100000 % 10) (by omega)
  have h2 := digitVal_digitChar (n / 10000 % 10) (by omega)
  have h3 := digitVal_digitChar (n / 1000 % 10) (by omega)
  have h4 := digitVal_digitChar (n / 100 % 10) (by omega)
  have h5 := digitVal_digitChar (n / 10 % 10) (by omega)
  have h6 := digitVal_digitChar (n % 10) (by omega)
  simp [pad6, takeDigits, h1, h2, h3, h4, h5, h6, hrest]

/-- Z replacement leaves the empty list unchanged. -/
lemma replaceZChars_nil : replaceZChars [] = [] := rfl

/-- Z replacement passes over a non-Z head character. -/
lemma replaceZChars_cons_ne (c : Char) (h : c ≠ 'Z') (l : List Char) :
    replaceZChars (c :: l) = c :: replaceZChars l := by
  simp [replaceZChars, h]

/-- Z replacement distributes over append. -/
lemma replaceZChars_append (a b : List Char) :
    replaceZChars (a ++ b) = replaceZChars a ++ replaceZChars b := by
  induction a with
  | nil => rfl
  | cons c cs ih => simp [replaceZChars, ih, List.append_assoc]

/-- Z replacement fixes two-digit renderings. -/
lemma replaceZChars_pad2 (n : Nat) : replaceZChars (pad2 n) = pad2 n := by
  have a1 : Nat.digitChar (n / 10 % 10) ≠ 'Z' := digitChar_ne_Z _ (by omega)
  have a2 : Nat.digitChar (n % 10) ≠ 'Z' := digitChar_ne_Z _ (by omega)
  simp [pad2, replaceZChars, a1, a2]

/-- Z replacement fixes four-digit renderings. -/
lemma replaceZChars_pad4 (n : Nat) : replaceZChars (pad4 n) = pad4 n := by
  have a1 : Nat.digitChar (n / 1000 % 10) ≠ 'Z' := digitChar_ne_Z _ (by omega)
  have a2 : Nat.digitChar (n / 100 % 10) ≠ 'Z' := digitChar_ne_Z _ (by omega)
  have a3 : Nat.digitChar (n / 10 % 10) ≠ 'Z' := digitChar_ne_Z _ (by omega)
  have a4 : Nat.digitChar (n % 10) ≠ 'Z' := digitChar_ne_Z _ (by omega)
  simp [pad4, replaceZChars, a1, a2, a3, a4]

/-- Z replacement fixes six-digit renderings. -/
lemma replaceZChars_pad6 (n : Nat) : replaceZChars (pad6 n) = pad6 n := by
  have a1 : Nat.digitChar (n / 100000 % 10) ≠ 'Z' := digitChar_ne_Z _ (by omega)
  have a2 : Nat.digitChar (n / 10000 % 10) ≠ 'Z' := digitChar_ne_Z _ (by omega)
  have a3 : Nat.digitChar (n / 1000 % 10) ≠ 'Z' := digitChar_ne_Z _ (by omega)
  have a4 : Nat.digitChar (n / 100 % 10) ≠ 'Z' := digitChar_ne_Z _ (by omega)
  have a5 : Nat.digitChar (n / 10 % 10) ≠ 'Z' := digitChar_ne_Z _ (by omega)
  have a6 : Nat.digitChar (n % 10) ≠ 'Z' := digitChar_ne_Z _ (by omega)
  simp [pad6, replaceZChars, a1, a2, a3, a4, a5, a6]

/-- Z replacement fixes rendered offsets. -/
lemma replaceZChars_offsetChars (m : Int) :
    replaceZChars (offsetChars m) = offsetChars m := by
  by_cases hneg : m < 0 <;>
    simp [offsetChars, hneg, replaceZChars_append, replaceZChars_pad2,
      replaceZChars_cons_ne '-' (by decide), replaceZChars_cons_ne '+' (by decide),
      replaceZChars_cons_ne ':' (by decide), replaceZChars_nil]

/-- An isoformat rendering contains no Z, so Z replacement fixes it. -/
lemma replaceZChars_isoChars (d : PyDateTime) :
    replaceZChars (isoChars d) = isoChars d := by
  obtain ⟨y, mo, dd, hh, mi, ss, μ, tz⟩ := d
  by_cases hμ : μ = 0 <;> cases tz <;>
    simp [isoChars, hμ, replaceZChars_append, replaceZChars_pad4, replaceZChars_pad2,
      replaceZChars_pad6, replaceZChars_offsetChars,
      replaceZChars_cons_ne '-' (by decide), replaceZChars_cons_ne 'T' (by decide),
      replaceZChars_cons_ne ':' (by decide), replaceZChars_cons_ne '.' (by decide),
      replaceZChars_nil]

/-- Every month has at most 31 days. -/
lemma daysInMonth_le (y m : Nat) : daysInMonth y m ≤ 31 := by
  unfold daysInMonth
  split
  · split <;> omega
  · split <;> omega

/-- The offset parser accepts the empty tail as a naive datetime. -/
lemma parseOffsetThen_nil (y mo dd hh mi ss μ : Nat)
    (h7 : hh ≤ 23) (h8 : mi ≤ 59) (h9 : ss ≤ 59) :
    parseOffsetThen y mo dd hh mi ss μ [] =
      some ⟨y, mo, dd, hh, mi, ss, μ, none⟩ := by
  simp [parseOffsetThen, finishDT, h7, h8, h9]

/-- The offset parser recovers a rendered offset exactly. -/
lemma parseOffsetThen_offsetChars (y mo dd hh mi ss μ : Nat) (m : Int)
    (h7 : hh ≤ 23) (h8 : mi ≤ 59) (h9 : ss ≤ 59) (hm : m.natAbs < 1440) :
    parseOffsetThen y mo dd hh mi ss μ (offsetChars m) =
      some ⟨y, mo, dd, hh, mi, ss, μ, some m⟩ := by
  have e2a : ∀ rest, parse2 (pad2 (m.natAbs / 60) ++ rest) =
      some (m.natAbs / 60, rest) := fun rest => parse2_pad2 _ rest (by omega)
  have e2b : parse2 (pad2 (m.natAbs % 60)) = some (m.natAbs % 60, []) := by
    have := parse2_pad2 (m.natAbs % 60) [] (by omega)
    simpa using this
  have hlt : 60 * (m.natAbs / 60) + m.natAbs % 60 < 1440 := by omega
  have hsplit : 60 * (m.natAbs / 60) + m.natAbs % 60 = m.natAbs := by omega
  by_cases hneg : m < 0
  · have hIv : -(((60 * (m.natAbs / 60) + m.natAbs % 60 : Nat)) : Int) = m := by
      rw [hsplit]
      omega
    have hoc : offsetChars m =
        '-' :: (pad2 (m.natAbs / 60) ++ ':' :: pad2 (m.natAbs % 60)) := by
      simp [offsetChars, hneg]
    rw [hoc]
    conv_rhs => rw [← hIv]
    simp [parseOffsetThen, e2a, e2b, expectChar, finishDT, h7, h8, h9, hlt]
  · have hIv : (((60 * (m.natAbs / 60) + m.natAbs % 60 : Nat)) : Int) = m := by
      rw [hsplit]
      omega
    have hoc : offsetChars m =
        '+' :: (pad2 (m.natAbs / 60) ++ ':' :: pad2 (m.natAbs % 60)) := by
      simp [offsetChars, hneg]
    rw [hoc]
    conv_rhs => rw [← hIv]
    simp [parseOffsetThen, e2a, e2b, expectChar, finishDT, h7, h8, h9, hlt]

/-- The fraction parser recovers a six-digit microsecond rendering. -/
lemma parseFracThen_pad6 (y mo dd hh mi ss μ : Nat) (hμ : μ ≤ 999999)
    (rest : List Char) (hrest : takeDigits rest = ([], rest)) :
    parseFracThen y mo dd hh mi ss (pad6 μ ++ rest) =
      parseOffsetThen y mo dd hh mi ss μ rest := by
  have htd := takeDigits_pad6 μ rest hrest
  have hval : fracValue [μ / 100000 % 10, μ / 10000 % 10, μ / 1000 % 10,
      μ / 100 % 10, μ / 10 % 10, μ % 10] * 10 ^ (6 - 6) = μ := by
    simp [fracValue]
    omega
  have hv2 : fracValue [μ / 100000 % 10, μ / 10000 % 10, μ / 1000 % 10,
      μ / 100 % 10, μ / 10 % 10, μ % 10] = μ := by
    simp [fracValue]
    omega
  simp only [parseFracThen, htd]
  norm_num
  rw [hv2]

/-- Round trip: parsing back an isoformat rendering of a valid datetime
recovers the datetime (the guarantee `datetime.fromisoformat` documents for
`datetime.isoformat` output). -/
lemma fromisoformatChars_isoChars (d : PyDateTime) (h : d.valid) :
    fromisoformatChars (isoChars d) = some d := by
  obtain ⟨y, mo, dd, hh, mi, ss, μ, tz⟩ := d
  unfold PyDateTime.valid at h
  dsimp only at h
  obtain ⟨h1, h2, h3, h4, h5, h6, h7, h8, h9, h10, h11⟩ := h
  have hdd99 : dd ≤ 99 := by
    have h31 := daysInMonth_le y mo
    omega
  have e4 : ∀ rest, parse4 (pad4 y ++ rest) = some (y, rest) :=
    fun rest => parse4_pad4 y rest (by omega)
  have emo : ∀ rest, parse2 (pad2 mo ++ rest) = some (mo, rest) :=
    fun rest => parse2_pad2 mo rest (by omega)
  have edd : ∀ rest, parse2 (pad2 dd ++ rest) = some (dd, rest) :=
    fun rest => parse2_pad2 dd rest (by omega)
  have ehh : ∀ rest, parse2 (pad2 hh ++ rest) = some (hh, rest) :=
    fun rest => parse2_pad2 hh rest (by omega)
  have emi : ∀ rest, parse2 (pad2 mi ++ rest) = some (mi, rest) :=
    fun rest => parse2_pad2 mi rest (by omega)
  have ess : ∀ rest, parse2 (pad2 ss ++ rest) = some (ss, rest) :=
    fun rest => parse2_pad2 ss rest (by omega)
  have ess0 : parse2 (pad2 ss) = some (ss, []) := by
    have := ess []
    simpa using this
  have hval : 1 ≤ mo ∧ mo ≤ 12 ∧ 1 ≤ dd ∧ dd ≤ daysInMonth y mo := ⟨h3, h4, h5, h6⟩
  cases tz with
  | none =>
      by_cases hμ0 : μ = 0
      · subst hμ0
        have hiso : isoChars ⟨y, mo, dd, hh, mi, ss, 0, none⟩ =
            pad4 y ++ '-' :: (pad2 mo ++ '-' :: (pad2 dd ++ 'T' ::
              (pad2 hh ++ ':' :: (pad2 mi ++ ':' :: pad2 ss)))) := by
          simp [isoChars]
        rw [hiso]
        simp [fromisoformatChars, e4, emo, edd, expectChar, hval, parseTime,
          ehh, emi, ess0, parseOffsetThen_nil y mo dd hh mi ss 0 h7 h8 h9]
      · have hiso : isoChars ⟨y, mo, dd, hh, mi, ss, μ, none⟩ =
            pad4 y ++ '-' :: (pad2 mo ++ '-' :: (pad2 dd ++ 'T' ::
              (pad2 hh ++ ':' :: (pad2 mi ++ ':' ::
                (pad2 ss ++ '.' :: pad6 μ))))) := by
          simp [isoChars, hμ0]
        rw [hiso]
        have efr : parseFracThen y mo dd hh mi ss (pad6 μ) =
            parseOffsetThen y mo dd hh mi ss μ [] := by
          have := parseFracThen_pad6 y mo dd hh mi ss μ (by omega) [] rfl
          simpa using this
        simp [fromisoformatChars, e4, emo, edd, expectChar, hval, parseTime,
          ehh, emi, ess, efr, parseOffsetThen_nil y mo dd hh mi ss μ h7 h8 h9]
  | some m =>
      have hm : m.natAbs < 1440 := by
        simpa [tzOkB] using h11
      have hoZ : expectChar '.' (offsetChars m) = none := by
        by_cases hneg : m < 0 <;> simp [offsetChars, hneg, expectChar]
      by_cases hμ0 : μ = 0
      · subst hμ0
        have hiso : isoChars ⟨y, mo, dd, hh, mi, ss, 0, some m⟩ =
            pad4 y ++ '-' :: (pad2 mo ++ '-' :: (pad2 dd ++ 'T' ::
              (pad2 hh ++ ':' :: (pad2 mi ++ ':' ::
                (pad2 ss ++ offsetChars m))))) := by
          simp [isoChars]
        rw [hiso]
        have eexp : ∀ (c : Char) (rest : List Char),
            expectChar c (c :: rest) = some rest := by
          intro c rest
          simp [expectChar]
        simp [fromisoformatChars, e4, emo, edd, eexp, hval, parseTime,
          ehh, emi, ess, hoZ,
          parseOffsetThen_offsetChars y mo dd hh mi ss 0 m h7 h8 h9 hm]
      · have hiso : isoChars ⟨y, mo, dd, hh, mi, ss, μ, some m⟩ =
            pad4 y ++ '-' :: (pad2 mo ++ '-' :: (pad2 dd ++ 'T' ::
              (pad2 hh ++ ':' :: (pad2 mi ++ ':' ::
                (pad2 ss ++ '.' :: (pad6 μ ++ offsetChars m)))))) := by
          simp [isoChars, hμ0]
        rw [hiso]
        have htdoff : takeDigits (offsetChars m) = ([], offsetChars m) := by
          by_cases hneg : m < 0 <;> simp [offsetChars, hneg, takeDigits, digitVal]
        have efr : parseFracThen y mo dd hh mi ss (pad6 μ ++ offsetChars m) =
            parseOffsetThen y mo dd hh mi ss μ (offsetChars m) :=
          parseFracThen_pad6 y mo dd hh mi ss μ (by omega) (offsetChars m) htdoff
        simp [fromisoformatChars, e4, emo, edd, expectChar, hval, parseTime,
          ehh, emi, ess, efr,
          parseOffsetThen_offsetChars y mo dd hh mi ss μ m h7 h8 h9 hm]

/-- C8: the timestamp formatter returns None for absent input; a trailing Z
is first normalized to +00:00; a parseable input — an ISO-8601 string or an
already-parsed datetime — is formatted to minute precision 'YYYY-MM-DD
HH:MM', discarding seconds, sub-seconds and any timezone annotation; an
unparseable input yields None without raising. -/
theorem format_timestamp_spec :
    format_timestamp TsInput.pynone = none ∧
    replaceZ "2024-01-05T10:15:30Z" = "2024-01-05T10:15:30+00:00" ∧
    format_timestamp (TsInput.str "2024-01-05T10:15:30Z") = some "2024-01-05 10:15" ∧
    format_timestamp (TsInput.str "not-a-date") = none ∧
    (∀ (s : String) (d : PyDateTime), fromisoformat (replaceZ s) = some d →
      format_timestamp (TsInput.str s) = some (strftimeYmdHM d)) ∧
    (∀ s : String, fromisoformat (replaceZ s) = none →
      format_timestamp (TsInput.str s) = none) ∧
    (∀ d : PyDateTime, d.valid →
      format_timestamp (TsInput.dt d) = some (strftimeYmdHM d)) ∧
    (∀ (d : PyDateTime) (s2 μ2 : Nat) (tz2 : Option Int),
      strftimeYmdHM { d with second := s2, microsecond := μ2, tzMinutes := tz2 } =
        strftimeYmdHM d) := by
  refine ⟨rfl, rfl, rfl, rfl, ?_, ?_, ?_, fun d s2 μ2 tz2 => rfl⟩
  · intro s d hparse
    by_cases hemp : s.data = []
    · exfalso
      have hnone : fromisoformat (replaceZ s) = none := by
        unfold fromisoformat replaceZ
        rw [hemp]
        rfl
      rw [hnone] at hparse
      exact Option.noConfusion hparse
    · simp [format_timestamp, hemp, hparse]
  · intro s hparse
    by_cases hemp : s.data = [] <;> simp [format_timestamp, hemp, hparse]
  · intro d hd
    have h1 : replaceZ d.isoformat = d.isoformat := by
      simp [replaceZ, PyDateTime.isoformat, replaceZChars_isoChars]
    have h2 : fromisoformat d.isoformat = some d := by
      unfold fromisoformat PyDateTime.isoformat
      exact fromisoformatChars_isoChars d hd
    simp [format_timestamp, h1, h2]

/-- Witness for C8: the datetime 2024-01-05 10:15:30 UTC is valid and both
input paths produce the minute-precision rendering, with the Z suffix
normalized on the string path. -/
theorem format_timestamp_spec_witness :
    (⟨2024, 1, 5, 10, 15, 30, 0, some 0⟩ : PyDateTime).valid ∧
    format_timestamp (TsInput.dt ⟨2024, 1, 5, 10, 15, 30, 0, some 0⟩) =
      some (strftimeYmdHM ⟨2024, 1, 5, 10, 15, 30, 0, some 0⟩) ∧
    fromisoformat (replaceZ "2024-01-05T10:15:30Z") =
      some ⟨2024, 1, 5, 10, 15, 30, 0, some 0⟩ ∧
    format_timestamp (TsInput.str "2024-01-05T10:15:30Z") =
      some (strftimeYmdHM ⟨2024, 1, 5, 10, 15, 30, 0, some 0⟩) :=
  ⟨by unfold PyDateTime.valid; decide,
    format_timestamp_spec.2.2.2.2.2.2.1 ⟨2024, 1, 5, 10, 15, 30, 0, some 0⟩
      (by unfold PyDateTime.valid; decide),
    by decide,
    format_timestamp_spec.2.2.2.2.1 "2024-01-05T10:15:30Z"
      ⟨2024, 1, 5, 10, 15, 30, 0, some 0⟩ (by decide)⟩

end JiraPipeline
